import Mathlib

/-!
# Verification of the git-util-native parsing core

Shallow embedding of the parsing and aggregation core of `src/lib.rs`
(a Rust N-API binding exposing git repository data).  Strings are
modelled as Lean `String`s / `List Char`; Rust `Vec` becomes `List`;
Rust `HashMap` / `HashSet` become insertion-ordered association lists,
with the seed-dependent iteration order of `into_values()` /
`into_iter()` made explicit as a reordering parameter; a Rust panic
(out-of-bounds index, `unwrap` on `None`) is modelled as `Option.none`
or a dedicated `panic` error value; a returned `Err(JsError)` is a
distinct, reported error value.
-/

namespace GitUtilNative

/-- The field separator sentinel (`static PARAM_INTERVAL`, lib.rs:14). -/
def PARAM_INTERVAL : String := "<<PARAM_INTERVAL>>"

/-- The record separator sentinel (`static COMMIT_INETRVAL`, lib.rs:15,
source spelling kept). -/
def COMMIT_INETRVAL : String := "<<COMMIT_INETRVAL>>"

/-! ## Char-list models of the Rust `str` primitives used by the core -/

/-- Model of Rust `str::split` on a single separator character
(e.g. `split("\n")`, `split("\t")`, `split("/")`): separators delimit
fields, empty fields are kept, and the result is always non-empty. -/
def splitOnChar (sep : Char) : List Char → List (List Char)
  | [] => [[]]
  | c :: cs =>
    if c = sep then [] :: splitOnChar sep cs
    else
      match splitOnChar sep cs with
      | [] => [[c]]
      | h :: t => (c :: h) :: t

/-- Fuel-indexed worker for `splitOnList`.  The fuel only makes the
recursion structural (so that concrete inputs evaluate inside the
kernel); `fuel ≥ l.length` always suffices because each step consumes
at least one character. -/
def splitOnListF (sep : List Char) : Nat → List Char → List Char → List (List Char)
  | _, [], acc => [acc.reverse]
  | 0, l, acc => [acc.reverse ++ l]
  | fuel + 1, c :: cs, acc =>
    if sep.isPrefixOf (c :: cs) then
      acc.reverse :: splitOnListF sep fuel (List.drop sep.length (c :: cs)) []
    else
      splitOnListF sep fuel cs (c :: acc)

/-- Model of Rust `str::split` on a (non-empty) multi-character
separator string, used for the `PARAM_INTERVAL` / `COMMIT_INETRVAL`
sentinels. -/
def splitOnList (sep : List Char) (l : List Char) : List (List Char) :=
  splitOnListF sep l.length l []

/-- Model of Rust `str::trim`: drop whitespace from both ends. -/
def trimL (l : List Char) : List Char :=
  ((l.dropWhile Char.isWhitespace).reverse.dropWhile Char.isWhitespace).reverse

/-- The function `trimL` lifted to `String`. -/
def trimS (s : String) : String := String.mk (trimL s.data)

/-- Model of Rust `str::trim_end_matches("\n")`: remove every trailing
newline character. -/
def trimEndNewline (l : List Char) : List Char :=
  (l.reverse.dropWhile (fun c => c = '\n')).reverse

/-- Fuel-indexed worker for `trimEndMatchesL` (fuel makes the recursion
structural; `fuel ≥ l.length` suffices). -/
def trimEndMatchesF (pat : List Char) : Nat → List Char → List Char
  | 0, l => l
  | fuel + 1, l =>
    if pat ≠ [] ∧ pat.isSuffixOf l then
      trimEndMatchesF pat fuel (l.take (l.length - pat.length))
    else l

/-- Model of Rust `str::trim_end_matches(pat)` for a multi-character
pattern: repeatedly remove a trailing occurrence of `pat`. -/
def trimEndMatchesL (pat : List Char) (l : List Char) : List Char :=
  trimEndMatchesF pat l.length l

/-- Worker for `splitWhitespaceL`, accumulating the current word. -/
def splitWsAux : List Char → List Char → List (List Char)
  | [], acc => if acc = [] then [] else [acc.reverse]
  | c :: cs, acc =>
    if c.isWhitespace then
      if acc = [] then splitWsAux cs []
      else acc.reverse :: splitWsAux cs []
    else splitWsAux cs (c :: acc)

/-- Model of Rust `str::split_whitespace` / `split_ascii_whitespace`:
words separated by runs of whitespace, no empty words. -/
def splitWhitespaceL (l : List Char) : List (List Char) :=
  splitWsAux l []

/-- Numeric value of a digit string, as computed by Rust
`str::parse::<i32>` on a match of the regex group `\d+` (counts in
shortstat output are small, so i32 overflow is not modelled). -/
def digitsVal (l : List Char) : Nat :=
  l.foldl (fun a c => a * 10 + (c.toNat - '0'.toNat)) 0

/-- Strip an expected literal character sequence from the front of the
input; `none` when the input does not start with the literal. -/
def stripLit : List Char → List Char → Option (List Char)
  | [], l => some l
  | _ :: _, [] => none
  | p :: ps, c :: cs => if c = p then stripLit ps cs else none

/-! ## Shortstat numeric parser (`log_shortstat_parse`, lib.rs:509-527)

The Rust function matches the regex

`(?<changes>\d+) files? changed(?:, (?<insertions>\d+) insertions?\(\+\))?(?:, (?<deletions>\d+) deletions?\(-\))?`

against the input (leftmost match) and returns
`(changes, insertions, deletions)` with absent groups defaulting to 0.
The embedding below implements exactly the regex's leftmost-first
semantics: the mandatory clause is searched for at each position left
to right, and each optional clause is taken greedily if it matches at
the current position (the regex's optional groups are deterministic
here: after `\d+` only a non-digit can follow, and the literal tails
disambiguate, so no backtracking interplay exists). -/

/-- Match one optional clause `, <digits> <word>s?(<sign>)` at the
current position (regex `(?:, (\d+) words?\(sign\))?`). -/
def matchClause (word : List Char) (sign : Char) (l : List Char) : Option (Nat × List Char) :=
  match stripLit [',', ' '] l with
  | none => none
  | some r1 =>
    let ds := r1.takeWhile Char.isDigit
    if ds.isEmpty then none
    else
      match stripLit (' ' :: word) (r1.dropWhile Char.isDigit) with
      | none => none
      | some r3 =>
        let r4 := match r3 with
          | 's' :: t => t
          | _ => r3
        match stripLit ['(', sign, ')'] r4 with
        | none => none
        | some r5 => some (digitsVal ds, r5)

/-- Capture of the deletions group: tried where the text after the
(possibly absent) insertions group starts; 0 when absent. -/
def shortstatDel (r : List Char) : Nat :=
  match matchClause ['d', 'e', 'l', 'e', 't', 'i', 'o', 'n'] '-' r with
  | some (n, _) => n
  | none => 0

/-- Captures of the two optional groups, in the regex's textual order:
the insertions group is tried first (greedily); the deletions group is
tried on what remains. -/
def shortstatClauses (r4 : List Char) : Nat × Nat :=
  match matchClause ['i', 'n', 's', 'e', 'r', 't', 'i', 'o', 'n'] '+' r4 with
  | some (n, r) => (n, shortstatDel r)
  | none => (0, shortstatDel r4)

/-- Try to match the whole shortstat regex starting exactly at the head
of `l`: `\d+ files? changed` then the two optional clauses. -/
def matchShortstatAt (l : List Char) : Option (Nat × Nat × Nat) :=
  let ds := l.takeWhile Char.isDigit
  if ds.isEmpty then none
  else
    match stripLit [' ', 'f', 'i', 'l', 'e'] (l.dropWhile Char.isDigit) with
    | none => none
    | some r2 =>
      let r3 := match r2 with
        | 's' :: t => t
        | _ => r2
      match stripLit [' ', 'c', 'h', 'a', 'n', 'g', 'e', 'd'] r3 with
      | none => none
      | some r4 => some (digitsVal ds, shortstatClauses r4)

/-- Leftmost search: try the regex at each start position, left to
right. -/
def shortstatSearch : List Char → Option (Nat × Nat × Nat)
  | [] => none
  | c :: cs =>
    match matchShortstatAt (c :: cs) with
    | some x => some x
    | none => shortstatSearch cs

/-- Embedding of `log_shortstat_parse` (lib.rs:509-527): `Except.ok`
with `(changes, insertions, deletions)` on a regex match, the reported
error string `"No match found!"` otherwise. -/
def log_shortstat_parse (status : String) : Except String (Nat × Nat × Nat) :=
  match shortstatSearch status.data with
  | some x => Except.ok x
  | none => Except.error "No match found!"

/-! ## Daily contribution aggregator (`get_contribute_stat`, lib.rs:533-632)

The function splits the command output on `COMMIT_INETRVAL`, drops
empty records, and folds each commit record into per-author and total
accumulators.  `StatDailyContribute` mirrors structs.rs:80-86 (counts
are small non-negative i32 values, modelled as `Nat`).  The per-author
`HashMap<String, AuthorStatDailyContribute>` is modelled as an
insertion-ordered association list.  A Rust panic (out-of-range index
assignment) is `AggErr.panic`; the `Err(JsError)` returned on a
shortstat parse failure (lib.rs:557-560) is `AggErr.parseErr`. -/

/-- Struct `Author` of structs.rs. -/
structure Author where
  name : String
  email : String
deriving DecidableEq, Repr

/-- Struct `StatDailyContribute` of structs.rs. -/
structure StatDailyContribute where
  commit_count : Nat
  data_list : List String
  insertion : List Nat
  deletions : List Nat
  change_files : List Nat
deriving DecidableEq, Repr

/-- Struct `AuthorStatDailyContribute` of structs.rs. -/
structure AuthorStatDailyContribute where
  author : Author
  stat : StatDailyContribute
deriving DecidableEq, Repr

/-- Errors of the aggregator: a reported `Err(JsError)` on shortstat
parse failure, or an abnormal termination (Rust panic). -/
inductive AggErr where
  | parseErr
  | panic
deriving DecidableEq, Repr

/-- The in-progress state of `get_contribute_stat`: the per-author map
(insertion-ordered) and the running total. -/
structure AggState where
  authors_stat : List (String × AuthorStatDailyContribute)
  total_stat : StatDailyContribute
deriving DecidableEq, Repr

/-- The accumulators as initialised at lib.rs:540-547. -/
def initAggState : AggState :=
  { authors_stat := []
    total_stat :=
      { commit_count := 0, data_list := [], insertion := [], deletions := [], change_files := [] } }

/-- Rust `vec[i] = v`: in-range assignment, panic otherwise. -/
def setGuard (l : List Nat) (i : Nat) (v : Nat) : Except AggErr (List Nat) :=
  if i < l.length then Except.ok (l.set i v) else Except.error AggErr.panic

/-- Replace the value stored at a key of an association list, keeping
its position (model of `HashMap::get_mut` followed by mutation). -/
def updateAssoc (m : List (String × AuthorStatDailyContribute)) (k : String)
    (v : AuthorStatDailyContribute) : List (String × AuthorStatDailyContribute) :=
  match m with
  | [] => []
  | (k', v') :: rest => if k' = k then (k', v) :: rest else (k', v') :: updateAssoc rest k v

/-- Per-author update of one commit (lib.rs:566-602): bump
`commit_count`; if the author's last recorded date equals `date`,
overwrite that day's three counts, else push a new day entry; a
previously unseen author starts a fresh accumulator. -/
def author_update (authors : List (String × AuthorStatDailyContribute))
    (name email date : String) (changes insertions deletions : Nat) :
    Except AggErr (List (String × AuthorStatDailyContribute)) :=
  match authors.lookup name with
  | some a =>
    let stat := a.stat
    let len := stat.data_list.length
    match stat.data_list.getLast? with
    | none => Except.error AggErr.panic
    | some lastDate =>
      if lastDate = date then do
        let cf ← setGuard stat.change_files (len - 1) changes
        let ins ← setGuard stat.insertion (len - 1) insertions
        let del ← setGuard stat.deletions (len - 1) deletions
        Except.ok (updateAssoc authors name
          { a with stat :=
            { stat with commit_count := stat.commit_count + 1,
                        change_files := cf, insertion := ins, deletions := del } })
      else
        Except.ok (updateAssoc authors name
          { a with stat :=
            { stat with commit_count := stat.commit_count + 1,
                        data_list := stat.data_list ++ [date],
                        insertion := stat.insertion ++ [insertions],
                        deletions := stat.deletions ++ [deletions],
                        change_files := stat.change_files ++ [changes] } })
  | none =>
    Except.ok (authors ++ [(name,
      { author := { name := name, email := email }
        stat :=
          { commit_count := 1, data_list := [date], insertion := [insertions],
            deletions := [deletions], change_files := [changes] } })])

/-- Total-stat update of one commit (lib.rs:604-618).  Note the source
pushes `date` onto `data_list` TWICE in the new-day branch
(lib.rs:612-613); the embedding reproduces this faithfully. -/
def total_update (total : StatDailyContribute) (date : String)
    (changes insertions deletions : Nat) : Except AggErr StatDailyContribute :=
  let len := total.data_list.length
  if 0 < len ∧ total.data_list.getLast? = some date then do
    let cf ← setGuard total.change_files (len - 1) changes
    let ins ← setGuard total.insertion (len - 1) insertions
    let del ← setGuard total.deletions (len - 1) deletions
    Except.ok
      { total with commit_count := total.commit_count + 1,
                   change_files := cf, insertion := ins, deletions := del }
  else
    Except.ok
      { total with commit_count := total.commit_count + 1,
                   data_list := total.data_list ++ [date, date],
                   insertion := total.insertion ++ [insertions],
                   deletions := total.deletions ++ [deletions],
                   change_files := total.change_files ++ [changes] }

/-- Body of the per-commit loop once the record has exactly two lines
(header and shortstat line), lib.rs:555-618. -/
def contribute_step2 (st : AggState) (l0 l1 : List Char) : Except AggErr AggState := do
  let auth_info := (splitOnList PARAM_INTERVAL.data l0).map String.mk
  match log_shortstat_parse (String.mk l1) with
  | Except.error _ => Except.error AggErr.parseErr
  | Except.ok (changes, insertions, deletions) =>
    match auth_info with
    | name :: email :: date :: _ =>
      let authors ← author_update st.authors_stat name email date changes insertions deletions
      let total ← total_update st.total_stat date changes insertions deletions
      Except.ok { authors_stat := authors, total_stat := total }
    | _ => Except.error AggErr.panic

/-- One iteration of the per-commit loop (lib.rs:551-619): records that
do not split into exactly two lines are skipped (`continue`). -/
def contribute_step (st : AggState) (commit : String) : Except AggErr AggState :=
  match splitOnChar '\n' (trimEndNewline commit.data) with
  | [l0, l1] => contribute_step2 st l0 l1
  | _ => Except.ok st

/-- Embedding of the parsing/aggregation core of `get_contribute_stat`
(lib.rs:538-624), from the command's stdout text to the final
accumulator state. -/
def get_contribute_stat (stdout : String) : Except AggErr AggState :=
  let commits := ((splitOnList COMMIT_INETRVAL.data (trimL stdout.data)).map String.mk).filter
    (fun line => line ≠ "")
  commits.foldlM contribute_step initAggState

/-! ## Delimiter-protocol commit-log parser (`get_commit_log_format`, lib.rs:288-318)

The stdout text is trimmed, a trailing `COMMIT_INETRVAL` is stripped,
and the text is split on `COMMIT_INETRVAL` into records; each record is
split on `PARAM_INTERVAL` into fields, and the loop at lib.rs:303-308
indexes `datas[i]` for `i < placeholders.len()` — an out-of-range index
or an unknown placeholder key (`unwrap` at lib.rs:306) is a Rust panic,
modelled as `none`.  The per-record `HashMap<String, String>` becomes
an insertion-ordered association list with insert-or-replace. -/

/-- The placeholder lookup table (`get_format_key_map`, lib.rs:224-251). -/
def get_format_key_map : List (String × String) :=
  [("%H", "hashL"), ("%h", "hashS"), ("%T", "treeL"), ("%t", "treeS"),
   ("%P", "parentHashL"), ("%p", "parentHashS"), ("%an", "authorName"),
   ("%ae", "authorEmail"), ("%ad", "date"), ("%ar", "dateRelative"),
   ("%at", "dateTimeStamp"), ("%cn", "committerName"), ("%ce", "committerEmail"),
   ("%cd", "committerDate"), ("%cr", "committerDateRelative"),
   ("%ct", "committerDateTimeStamp"), ("%cs", "committerDateYMD"),
   ("%d", "refs"), ("%D", "refsComma"), ("%s", "message"), ("%b", "body"),
   ("%B", "bodyNoTrailingSlash"), ("%N", "notes")]

/-- Insert-or-replace into an association list (model of the content of
`HashMap::insert`). -/
def map_insert (m : List (String × String)) (k v : String) : List (String × String) :=
  match m with
  | [] => [(k, v)]
  | (k', v') :: rest => if k' = k then (k', v) :: rest else (k', v') :: map_insert rest k v

/-- The per-record loop of lib.rs:303-308, with the map built so far as
accumulator: for each placeholder in order, read the parallel field
(`datas[i]`, panic when absent), trim it, translate the placeholder
through the key map (`unwrap`, panic when unknown), and insert. -/
def parse_record_go : List (String × String) → List String → List String →
    Option (List (String × String))
  | acc, [], _ => some acc
  | _, _ :: _, [] => none
  | acc, p :: ps, d :: ds =>
    match get_format_key_map.lookup p with
    | none => none
    | some key => parse_record_go (map_insert acc key (trimS d)) ps ds

/-- Parse one record's field list against the requested placeholders. -/
def parse_record (placeholders datas : List String) : Option (List (String × String)) :=
  parse_record_go [] placeholders datas

/-- Embedding of the parsing part of `get_commit_log_format`
(lib.rs:296-311): `none` models a Rust panic; extra fields beyond the
requested placeholders are ignored by the loop. -/
def get_commit_log_format (placeholders : List String) (stdout : String) :
    Option (List (List (String × String))) :=
  let body := trimEndMatchesL COMMIT_INETRVAL.data (trimL stdout.data)
  (splitOnList COMMIT_INETRVAL.data body).mapM
    (fun line => parse_record placeholders ((splitOnList PARAM_INTERVAL.data line).map String.mk))

/-! ## File status parser (`get_commit_file_status`, lib.rs:742-797)

Each status line is split on tabs; `params[0][0..1]` (panic on an empty
flag column) selects the status kind, and only the `"R"` arm with
exactly three columns synthesises the rename message (lib.rs:760-773).
`params[1]` is always used as the path (panic when missing). -/

/-- Enum `FileStatusType` of structs.rs. -/
inductive FileStatusType where
  | Added
  | Deleted
  | Modified
  | Renamed
  | Copied
  | Updated
  | Unknown
deriving DecidableEq, Repr

/-- Struct `FileStatus` of structs.rs. -/
structure FileStatus where
  path : String
  status : FileStatusType
  message : String
deriving DecidableEq, Repr

/-- The per-line closure of lib.rs:755-779, applied to the tab-split
column list.  `none` models the Rust panics on a missing path column or
an empty flag column. -/
def parse_status_params : List String → Option FileStatus
  | p0 :: p1 :: rest =>
    match p0.data with
    | [] => none
    | c :: _ =>
      let pair : FileStatusType × String :=
        if c = 'A' then (FileStatusType.Added, "")
        else if c = 'D' then (FileStatusType.Deleted, "")
        else if c = 'M' then (FileStatusType.Modified, "")
        else if c = 'R' then
          (FileStatusType.Renamed,
            match rest with
            | [p2] => p1 ++ " => " ++ p2
            | _ => "")
        else if c = 'C' then (FileStatusType.Copied, "")
        else if c = 'U' then (FileStatusType.Updated, "")
        else (FileStatusType.Unknown, "")
      some { path := p1, status := pair.1, message := pair.2 }
  | _ => none

/-- One file-status line of `get_commit_file_status`: split on `"\t"`
(lib.rs:756) and run the closure. -/
def get_commit_file_status_line (line : String) : Option FileStatus :=
  parse_status_params ((splitOnChar '\t' line.data).map String.mk)

/-- The status table exactly as the spec words it ("A→Added, D→Deleted,
M→Modified, R→Renamed, C→Copied, U→Updated, else→Unknown"), for
comparison with the code's selection. -/
def spec_status_table (c : Char) : FileStatusType :=
  if c = 'A' then FileStatusType.Added
  else if c = 'D' then FileStatusType.Deleted
  else if c = 'M' then FileStatusType.Modified
  else if c = 'R' then FileStatusType.Renamed
  else if c = 'C' then FileStatusType.Copied
  else if c = 'U' then FileStatusType.Updated
  else FileStatusType.Unknown

/-! ## File tree builder (`insert_file_to_tree` lib.rs:637-672,
`file_info_list_to_tree` lib.rs:677-714)

`RepoFileInfo` (structs.rs:105-114) is a nested inductive.  The Rust
insertion walks the path segments keeping a cursor into the current
children list: at each segment it looks for the first existing
*directory* node of that name (`Iterator::position`, lib.rs:642) and
descends, otherwise it pushes a new node at the end of the list and
descends into it when it is a directory.  The embedding recurses on the
remaining segments, carrying the already-walked prefix (`pre`) for the
`dir` field computation of lib.rs:652. -/

/-- Struct `RepoFileInfo` of structs.rs; constructor argument order:
name, dir, object_mode, object_type, object_name, object_size, is_dir,
children. -/
inductive RepoFileInfo where
  | mk (name dir object_mode object_type object_name object_size : String)
       (isdir : Bool) (children : List RepoFileInfo)

/-- Field `name`. -/
def RepoFileInfo.name : RepoFileInfo → String
  | .mk n _ _ _ _ _ _ _ => n

/-- Field `dir`. -/
def RepoFileInfo.dir : RepoFileInfo → String
  | .mk _ d _ _ _ _ _ _ => d

/-- Field `object_mode`. -/
def RepoFileInfo.object_mode : RepoFileInfo → String
  | .mk _ _ om _ _ _ _ _ => om

/-- Field `object_type`. -/
def RepoFileInfo.object_type : RepoFileInfo → String
  | .mk _ _ _ ot _ _ _ _ => ot

/-- Field `object_name` (the object hash, `%(objectname)`). -/
def RepoFileInfo.object_name : RepoFileInfo → String
  | .mk _ _ _ _ onm _ _ _ => onm

/-- Field `object_size`. -/
def RepoFileInfo.object_size : RepoFileInfo → String
  | .mk _ _ _ _ _ os _ _ => os

/-- Field `is_dir`. -/
def RepoFileInfo.is_dir : RepoFileInfo → Bool
  | .mk _ _ _ _ _ _ isd _ => isd

/-- Field `children`. -/
def RepoFileInfo.children : RepoFileInfo → List RepoFileInfo
  | .mk _ _ _ _ _ _ _ ch => ch

/-- Replace the children list, keeping every other field. -/
def RepoFileInfo.withChildren : RepoFileInfo → List RepoFileInfo → RepoFileInfo
  | .mk n d om ot onm os isd _, ch => .mk n d om ot onm os isd ch

/-- Model of `Iterator::position(|t| t.name == file_tree[i] && t.is_dir)`
(lib.rs:642). -/
def find_dir_idx (seg : String) : List RepoFileInfo → Option Nat
  | [] => none
  | t :: ts =>
    if t.name = seg ∧ t.is_dir then some 0
    else (find_dir_idx seg ts).map (· + 1)

/-- Embedding of the segment loop of `insert_file_to_tree`
(lib.rs:641-671).  `pre` is the list of segments already descended
through (so `pre.length` is the loop index `i`); `segs` the remaining
segments.  A found directory node is updated in place; otherwise a new
node is appended at the end, a leaf exactly when this is the final
segment and the object mode is not a directory mode. -/
def insert_file_to_tree (object_mode object_type object_name object_size : String) :
    List String → List String → List RepoFileInfo → List RepoFileInfo
  | _, [], file_list => file_list
  | pre, seg :: rest, file_list =>
    match find_dir_idx seg file_list with
    | some i =>
      match file_list[i]? with
      | some t =>
        file_list.set i (t.withChildren
          (insert_file_to_tree object_mode object_type object_name object_size
            (pre ++ [seg]) rest t.children))
      | none => file_list
    | none =>
      let is_last := rest.isEmpty
      let isd := "040000".data.isPrefixOf object_mode.data || !is_last
      let d := if pre = [] then "./" else String.intercalate "/" pre
      let node : RepoFileInfo := .mk seg d
        (if is_last then object_mode else "")
        (if is_last then object_type else "")
        (if is_last then object_name else "")
        (if is_last then object_size else "")
        isd
        (if isd then
          insert_file_to_tree object_mode object_type object_name object_size
            (pre ++ [seg]) rest []
         else [])
      file_list ++ [node]

/-- Embedding of `file_info_list_to_tree` (lib.rs:677-714): each line is
split on `PARAM_INTERVAL` into exactly five columns
`(object_mode, object_type, object_size, object_name, object_path)` —
note the source reads column 2 as the size and column 3 as the object
name/hash (lib.rs:682-686); lines with any other column count are
skipped.  A multi-segment path goes through `insert_file_to_tree`; a
bare path is pushed directly as a root-level node.  The loop body
(lib.rs:679-711) is `file_info_line_step`; the fold over the lines is
`file_info_list_to_tree`. -/
def file_info_line_step (file_list : List RepoFileInfo) (line : String) : List RepoFileInfo :=
  match (splitOnList PARAM_INTERVAL.data line.data).map String.mk with
  | [object_mode, object_type, object_size0, object_name, object_path] =>
    let object_size := trimS object_size0
    let file_tree := (splitOnChar '/' object_path.data).map String.mk
    if file_tree.length > 1 then
      insert_file_to_tree object_mode object_type object_name object_size
        [] file_tree file_list
    else
      let isd := "040000".data.isPrefixOf object_mode.data
      file_list ++
        [RepoFileInfo.mk object_path "./" object_mode object_type object_name
          object_size isd []]
  | _ => file_list

/-- The fold of `file_info_list_to_tree` over its input lines. -/
def file_info_list_to_tree (file_info_list : List String) : List RepoFileInfo :=
  file_info_list.foldl file_info_line_step []

mutual

/-- Node-level tree invariant of the spec: a node with a non-empty
children list is a directory, recursively. -/
def invNodeB : RepoFileInfo → Bool
  | .mk _ _ _ _ _ _ isd ch => (ch.isEmpty || isd) && invListB ch

/-- The invariant `invNodeB` over a children list. -/
def invListB : List RepoFileInfo → Bool
  | [] => true
  | t :: ts => invNodeB t && invListB ts

end

/-! ## Remote and author-set parsers (`get_remote` lib.rs:173-203,
`get_all_authors` lib.rs:355-378)

Both functions accumulate into a std `HashMap` / `HashSet` and return
`into_values()` / `into_iter()` — an iteration order that depends on
the per-instance random hash seed, not on the input.  The accumulation
itself is modelled as an insertion-ordered list; the seed-dependent
final ordering is an explicit reordering parameter `order`. -/

/-- Struct `Remote` of structs.rs. -/
structure Remote where
  name : String
  url : String
  operate : List String
deriving DecidableEq, Repr

/-- Rust `trim_start_matches("(").trim_end_matches(")")` on the
operation column. -/
def trimParens (l : List Char) : List Char :=
  (((l.dropWhile (fun c => c = '(')).reverse).dropWhile (fun c => c = ')')).reverse

/-- Per-line accumulation of `get_remote` (lib.rs:180-195): merge lines
by remote name, first URL wins, operations appended in encounter
order.  `none` models the panic when a line has fewer than three
whitespace-separated columns. -/
def remote_line (m : List (String × Remote)) (line : List Char) :
    Option (List (String × Remote)) :=
  match (splitWhitespaceL (trimL line)).map String.mk with
  | p0 :: p1 :: p2 :: _ =>
    let operate := String.mk (trimParens p2.data)
    match m.lookup p0 with
    | some r =>
      some (m.map (fun kv =>
        if kv.1 = p0 then (kv.1, { r with operate := r.operate ++ [operate] }) else kv))
    | none => some (m ++ [(p0, { name := p0, url := p1, operate := [operate] })])
  | _ => none

/-- Insertion-ordered content of `get_remote`'s accumulator map
(lib.rs:176-196), before `into_values()`. -/
def get_remote_core (stdout : String) : Option (List Remote) :=
  ((splitOnChar '\n' (trimL stdout.data)).foldlM remote_line []).map
    (fun m => m.map Prod.snd)

/-- Embedding of `get_remote` (lib.rs:173-203).  `order` models the
seed-dependent iteration order of `HashMap::into_values`: any actual
run of the Rust code returns `get_remote stdout order` for some
permutation function `order`. -/
def get_remote (stdout : String) (order : List Remote → List Remote) :
    Option (List Remote) :=
  (get_remote_core stdout).map order

/-- Per-line accumulation of `get_all_authors` (lib.rs:362-370):
`keys[1]`/`keys[2]` of the whitespace-split shortlog line (panic when
missing), deduplicated as a set. -/
def authors_line (acc : List Author) (line : List Char) : Option (List Author) :=
  match (splitWhitespaceL line).map String.mk with
  | _ :: k1 :: k2 :: _ =>
    let a : Author := { name := k1, email := k2 }
    some (if a ∈ acc then acc else acc ++ [a])
  | _ => none

/-- Insertion-ordered content of `get_all_authors`' accumulator set
(lib.rs:360-370), before `into_iter()`. -/
def get_all_authors_core (stdout : String) : Option (List Author) :=
  (splitOnChar '\n' (trimL stdout.data)).foldlM authors_line []

/-- Embedding of `get_all_authors` (lib.rs:355-378), with the
seed-dependent `HashSet::into_iter` order as an explicit parameter. -/
def get_all_authors (stdout : String) (order : List Author → List Author) :
    Option (List Author) :=
  (get_all_authors_core stdout).map order

/-- Relation stating same elements, possibly different order, on optional result
lists: both runs fail identically, or both succeed with permuted
contents. -/
def PermOpt {α : Type} : Option (List α) → Option (List α) → Prop
  | none, none => True
  | some a, some b => a.Perm b
  | _, _ => False

/-! ## Concrete inputs used by the claims -/

/-- One-commit `get_contribute_stat` stdout (format
`<<COMMIT_INETRVAL>>%an<<PARAM_INTERVAL>>%ae<<PARAM_INTERVAL>>%at` with
`--shortstat`, lib.rs:534). -/
def oneCommitStdout : String :=
  "<<COMMIT_INETRVAL>>alice<<PARAM_INTERVAL>>a@x<<PARAM_INTERVAL>>100\n1 file changed, 2 insertions(+)"

/-- Two commits by the same author with the same date. -/
def twoSameDayStdout : String :=
  "<<COMMIT_INETRVAL>>alice<<PARAM_INTERVAL>>a@x<<PARAM_INTERVAL>>100\n1 file changed, 2 insertions(+)<<COMMIT_INETRVAL>>alice<<PARAM_INTERVAL>>a@x<<PARAM_INTERVAL>>100\n2 files changed, 3 insertions(+)"

/-- A commit-log record with three fields, one more than the two
requested placeholders. -/
def threeFieldRecord : String := "a<<PARAM_INTERVAL>>b<<PARAM_INTERVAL>>c"

/-- A Copied status line carrying two path columns. -/
def copiedLine : String := "C75\told.txt\tnew.txt"

/-- An ls-tree line for `("100644","blob","h1","10","a/b/c.txt")` in the
claim's (mode, type, hash, size, path) reading. -/
def treeLine1 : String :=
  "100644<<PARAM_INTERVAL>>blob<<PARAM_INTERVAL>>h1<<PARAM_INTERVAL>>10<<PARAM_INTERVAL>>a/b/c.txt"

/-- An ls-tree line for `("100644","blob","h2","5","a/b/d.txt")`. -/
def treeLine2 : String :=
  "100644<<PARAM_INTERVAL>>blob<<PARAM_INTERVAL>>h2<<PARAM_INTERVAL>>5<<PARAM_INTERVAL>>a/b/d.txt"

/-- An ls-tree line with a bare top-level path (columns given in the
code's (mode, type, size, hash, path) order). -/
def treeLineBare : String :=
  "100644<<PARAM_INTERVAL>>blob<<PARAM_INTERVAL>>12<<PARAM_INTERVAL>>hx<<PARAM_INTERVAL>>x.txt"

/-- A `git remote -v` stdout with two remotes, one of them listed for
both fetch and push. -/
def twoRemoteStdout : String :=
  "origin\thttps://o (fetch)\norigin\thttps://o (push)\nupstream\thttps://u (fetch)"

/-- The object hash recorded on the `a/b/c.txt` leaf of the tree built
from `treeLine1`/`treeLine2`. -/
def treeLine1LeafHash : Option String :=
  ((file_info_list_to_tree [treeLine1, treeLine2]).head?.bind fun a =>
    a.children.head?.bind fun b =>
      b.children.head?.map RepoFileInfo.object_name)

/-! ## Claim C4: shortstat parser test vectors -/

set_option maxRecDepth 100000 in
/-- C4: `log_shortstat_parse` returns (3,10,4) on
"3 files changed, 10 insertions(+), 4 deletions(-)", (1,0,2) on
"1 file changed, 2 deletions(-)" (a missing count defaults to 0), and
the reported parse error on "no match text". -/
theorem C4_shortstat_test_vectors :
    log_shortstat_parse "3 files changed, 10 insertions(+), 4 deletions(-)" =
      Except.ok (3, 10, 4) ∧
    log_shortstat_parse "1 file changed, 2 deletions(-)" = Except.ok (1, 0, 2) ∧
    log_shortstat_parse "no match text" = Except.error "No match found!" :=
  ⟨rfl, rfl, rfl⟩

/-! ## Claim C3: order of the insertion/deletion clauses -/

set_option maxRecDepth 100000 in
/-- C3 counterexample: on
"3 files changed, 4 deletions(-), 10 insertions(+)" — the deletion
clause first — the parser does NOT produce (3,10,4): the regex's
optional groups are positional (insertions before deletions), so the
insertion count is lost and the result is (3,0,4). -/
theorem C3_counterexample_reversed_clauses :
    log_shortstat_parse "3 files changed, 4 deletions(-), 10 insertions(+)" =
      Except.ok (3, 0, 4) ∧
    ¬ (log_shortstat_parse "3 files changed, 4 deletions(-), 10 insertions(+)" =
        Except.ok (3, 10, 4)) := by
  refine ⟨rfl, fun h => ?_⟩
  rw [show log_shortstat_parse "3 files changed, 4 deletions(-), 10 insertions(+)" =
      Except.ok ((3 : Nat), (0 : Nat), (4 : Nat)) from rfl] at h
  injection h with h'
  exact absurd h' (by decide)

/-! ## Claim C1: parallel-array invariant of `StatDailyContribute` -/

set_option maxRecDepth 100000 in
/-- C1 (code bug): after one successfully parsed commit the TOTAL
accumulator's `data_list` has length 2 while the three count arrays
have length 1 — the new-day branch of the total stat pushes the date
twice (lib.rs:612-613), so the spec's equal-length invariant is broken
on every successful return with at least one commit. -/
theorem C1_total_arrays_unequal_lengths :
    (get_contribute_stat oneCommitStdout).map (fun st =>
      (st.total_stat.data_list.length, st.total_stat.insertion.length,
       st.total_stat.deletions.length, st.total_stat.change_files.length)) =
      Except.ok (2, 1, 1, 1) :=
  rfl

/-! ## Claim C5: same-day commits of one author -/

set_option maxRecDepth 100000 in
/-- C5 (code bug): two same-day commits by the same author do not
return a stat at all — the second commit's total-stat update indexes
`change_files[len - 1]` where `len` counts the doubly-pushed
`data_list` (lib.rs:606-609 after the double push of lib.rs:612-613),
which is out of range: the function panics instead of returning one
day entry with commitCount 2. -/
theorem C5_same_day_commits_panic :
    get_contribute_stat twoSameDayStdout = Except.error AggErr.panic :=
  rfl

/-! ## Claim C2: field-count mismatch in the commit-log parser -/

set_option maxRecDepth 100000 in
/-- C2 counterexample: a record with three fields against two requested
placeholders is parsed successfully with the extra field silently
dropped — no data-integrity error is reported (in this embedding
`none` is the only failure, modelling the Rust panic; the code has no
reported-error path for a field-count mismatch at all). -/
theorem C2_counterexample_extra_field_dropped :
    get_commit_log_format ["%an", "%ae"] threeFieldRecord =
      some [[("authorName", "a"), ("authorEmail", "b")]] ∧
    ¬ (get_commit_log_format ["%an", "%ae"] threeFieldRecord = none) := by
  refine ⟨rfl, fun h => ?_⟩
  rw [show get_commit_log_format ["%an", "%ae"] threeFieldRecord =
      some [[("authorName", "a"), ("authorEmail", "b")]] from rfl] at h
  exact Option.noConfusion h

/-! ## Claim C6: status table and rename message -/

set_option maxRecDepth 100000 in
/-- C6 counterexample: a Copied line with two path columns gets an
EMPTY message — only the `"R"` arm synthesises
`"<old> => <new>"` (lib.rs:764-770); the `"C"` arm does not. -/
theorem C6_counterexample_copied_no_message :
    get_commit_file_status_line copiedLine =
      some { path := "old.txt", status := FileStatusType.Copied, message := "" } ∧
    ¬ ((get_commit_file_status_line copiedLine).map FileStatus.message =
        some ("old.txt" ++ " => " ++ "new.txt")) := by
  refine ⟨rfl, fun h => ?_⟩
  rw [show (get_commit_file_status_line copiedLine).map FileStatus.message =
      some "" from rfl] at h
  injection h with h'
  exact absurd h' (by decide)

/-! ## Claim C7: the two-path tree example -/

set_option maxRecDepth 100000 in
/-- C7 counterexample: in the tree built from the claim's two tuples
(read as the spec's (mode, type, hash, size, path) column order), the
`a/b/c.txt` leaf carries object hash "10", not the given hash "h1" —
the code reads column 2 as the size and column 3 as the hash
(lib.rs:682-686). -/
theorem C7_counterexample_leaf_hash_swapped :
    treeLine1LeafHash = some "10" ∧ ¬ (treeLine1LeafHash = some "h1") := by
  refine ⟨rfl, fun h => ?_⟩
  rw [show treeLine1LeafHash = some "10" from rfl] at h
  injection h with h'
  exact absurd h' (by decide)

set_option maxRecDepth 100000 in
/-- C7 amended: with the code's (mode, type, size, hash, path) column
reading, the two tuples build a root containing exactly one directory
"a", containing one directory "b", containing the two leaves
`c.txt`/`d.txt` (directory nodes with empty object fields; the leaves
carry hash column 4 and size column 3, i.e. swapped relative to the
claim's reading), and a single bare top-level path is inserted directly
as a root-level leaf. -/
theorem C7_amended_tree_shape :
    file_info_list_to_tree [treeLine1, treeLine2] =
      [RepoFileInfo.mk "a" "./" "" "" "" "" true
        [RepoFileInfo.mk "b" "a" "" "" "" "" true
          [RepoFileInfo.mk "c.txt" "a/b" "100644" "blob" "10" "h1" false [],
           RepoFileInfo.mk "d.txt" "a/b" "100644" "blob" "5" "h2" false []]]] ∧
    file_info_list_to_tree [treeLineBare] =
      [RepoFileInfo.mk "x.txt" "./" "100644" "blob" "hx" "12" false []] :=
  ⟨rfl, rfl⟩

/-! ## Claim C10: records that do not split into two lines are skipped -/

/-- C10: a commit record whose text does not split into exactly two
lines is skipped silently by the aggregation loop (`continue`,
lib.rs:554): no error, no commitCount increment, no day or count
entry — the state is returned unchanged. -/
theorem C10_malformed_record_skipped_silently (st : AggState) (c : String)
    (h : (splitOnChar '\n' (trimEndNewline c.data)).length ≠ 2) :
    contribute_step st c = Except.ok st := by
  unfold contribute_step
  split
  · rename_i l0 l1 heq
    rw [heq] at h
    simp at h
  · rfl

/-- Witness for C10 at the concrete one-line record "abc". -/
theorem C10_witness : contribute_step initAggState "abc" = Except.ok initAggState :=
  C10_malformed_record_skipped_silently initAggState "abc" (by decide)

/-! ## Claim C2: amended behaviour of the record parser -/

/-- On a record with fewer fields than requested placeholders, the loop
of lib.rs:303-308 hits `datas[i]` out of range: a panic (`none`), not a
reported error. -/
theorem parse_record_go_short : ∀ (ps ds : List String) (acc : List (String × String)),
    ds.length < ps.length → parse_record_go acc ps ds = none := by
  intro ps
  induction ps with
  | nil => intro ds acc h; simp at h
  | cons p ps ih =>
    intro ds acc h
    cases ds with
    | nil => rfl
    | cons d ds =>
      simp only [parse_record_go]
      cases hk : List.lookup p get_format_key_map with
      | none => rfl
      | some key => exact ih ds _ (by simpa using h)

/-- The loop of lib.rs:303-308 reads only the first
`placeholders.length` fields: any extra fields are ignored. -/
theorem parse_record_go_take : ∀ (ps ds : List String) (acc : List (String × String)),
    parse_record_go acc ps ds = parse_record_go acc ps (ds.take ps.length) := by
  intro ps
  induction ps with
  | nil => intro ds acc; rfl
  | cons p ps ih =>
    intro ds acc
    cases ds with
    | nil => rfl
    | cons d ds =>
      simp only [parse_record_go, List.take_succ_cons]
      cases hk : List.lookup p get_format_key_map with
      | none => rfl
      | some key => exact ih ds _

/-- C2 amended: for every placeholder list and record field list, a
record with FEWER fields than placeholders makes the parse panic
(abnormal termination, `none`), and otherwise only the first
`placeholders.length` fields are read — extra fields are silently
dropped.  No field-count mismatch is ever reported as an error. -/
theorem C2_amended_truncation_and_panic (placeholders datas : List String) :
    (datas.length < placeholders.length → parse_record placeholders datas = none) ∧
    parse_record placeholders datas = parse_record placeholders (datas.take placeholders.length) :=
  ⟨fun h => parse_record_go_short placeholders datas [] h,
   parse_record_go_take placeholders datas []⟩

/-- Witness for C2 at concrete inputs: two placeholders against a
one-field record panic; a three-field record parses exactly as its
two-field truncation. -/
theorem C2_witness :
    parse_record ["%an", "%ae"] ["a"] = none ∧
    parse_record ["%an", "%ae"] ["a", "b", "c"] =
      parse_record ["%an", "%ae"] (["a", "b", "c"].take 2) :=
  ⟨(C2_amended_truncation_and_panic ["%an", "%ae"] ["a"]).1 (by decide),
   (C2_amended_truncation_and_panic ["%an", "%ae"] ["a", "b", "c"]).2⟩

/-! ## Claim C6: amended status-line behaviour -/

/-- C6 amended: the status kind is selected from the first character of
the flag column by the spec's fixed table, but the
`"<old> => <new>"` message is synthesised ONLY for Renamed lines with
exactly three columns; Copied lines (and every other kind) always get
an empty message.  The two spec examples behave as claimed. -/
theorem C6_amended_status_table_and_rename_message :
    (∀ (p0 p1 : String) (rest : List String) (c : Char) (cs : List Char),
      p0.data = c :: cs →
      parse_status_params (p0 :: p1 :: rest) =
        some { path := p1, status := spec_status_table c,
               message := if c = 'R' ∧ rest.length = 1
                 then p1 ++ " => " ++ rest.headD "" else "" }) ∧
    get_commit_file_status_line "R100\told.txt\tnew.txt" =
      some { path := "old.txt", status := FileStatusType.Renamed,
             message := "old.txt => new.txt" } ∧
    get_commit_file_status_line "A\tfile.txt" =
      some { path := "file.txt", status := FileStatusType.Added, message := "" } := by
  refine ⟨?_, rfl, rfl⟩
  intro p0 p1 rest c cs hp0
  simp only [parse_status_params, hp0]
  by_cases hA : c = 'A'
  · simp [spec_status_table, hA]
  · by_cases hD : c = 'D'
    · simp [spec_status_table, hA, hD]
    · by_cases hM : c = 'M'
      · simp [spec_status_table, hA, hD, hM]
      · by_cases hR : c = 'R'
        · cases rest with
          | nil => simp [spec_status_table, hA, hD, hM, hR]
          | cons p2 rest2 =>
            cases rest2 with
            | nil => simp [spec_status_table, hA, hD, hM, hR]
            | cons p3 rest3 => simp [spec_status_table, hA, hD, hM, hR]
        · by_cases hC : c = 'C'
          · simp [spec_status_table, hA, hD, hM, hR, hC]
          · by_cases hU : c = 'U'
            · simp [spec_status_table, hA, hD, hM, hR, hC, hU]
            · simp [spec_status_table, hA, hD, hM, hR, hC, hU]

/-- Witness for C6 at the Copied line with two path columns. -/
theorem C6_witness :
    parse_status_params ["C75", "old.txt", "new.txt"] =
      some { path := "old.txt", status := FileStatusType.Copied, message := "" } := by
  have h := C6_amended_status_table_and_rename_message.1 "C75" "old.txt" ["new.txt"]
    'C' ['7', '5'] rfl
  simpa [spec_status_table] using h

/-! ## Claim C9: determinism up to hash-container iteration order -/

/-- C9 counterexample: the order of `get_remote`'s result is the
iteration order of a std `HashMap`, which depends on the per-instance
random hash seed and not on the input: two legitimate orders of the
same two-remote stdout differ, so "equal element order on every run"
fails. -/
theorem C9_counterexample_remote_order :
    get_remote twoRemoteStdout (fun l => l.reverse) ≠ get_remote twoRemoteStdout (fun l => l) := by
  decide

/-- C9 amended: each parser's result CONTENT is a deterministic
function of the stdout text: for any two runs (any two permutations
standing for the hash-container iteration orders), `get_remote` and
`get_all_authors` either both fail identically or return permutations
of each other. -/
theorem C9_amended_content_determinism :
    (∀ (s : String) (o₁ o₂ : List Remote → List Remote),
      (∀ l, (o₁ l).Perm l) → (∀ l, (o₂ l).Perm l) →
      PermOpt (get_remote s o₁) (get_remote s o₂)) ∧
    (∀ (s : String) (o₁ o₂ : List Author → List Author),
      (∀ l, (o₁ l).Perm l) → (∀ l, (o₂ l).Perm l) →
      PermOpt (get_all_authors s o₁) (get_all_authors s o₂)) := by
  constructor
  · intro s o₁ o₂ h₁ h₂
    unfold get_remote PermOpt
    cases get_remote_core s with
    | none => simp
    | some v => simpa using (h₁ v).trans (h₂ v).symm
  · intro s o₁ o₂ h₁ h₂
    unfold get_all_authors PermOpt
    cases get_all_authors_core s with
    | none => simp
    | some v => simpa using (h₁ v).trans (h₂ v).symm

/-- Witness for C9: the identity and reversal orders on the concrete
two-remote stdout give permuted results. -/
theorem C9_witness :
    PermOpt (get_remote twoRemoteStdout (fun l => l.reverse))
      (get_remote twoRemoteStdout (fun l => l)) :=
  C9_amended_content_determinism.1 twoRemoteStdout (fun l => l.reverse) (fun l => l)
    (fun l => l.reverse_perm) (fun l => List.Perm.refl l)

/-! ## Claim C8: tree invariant and sibling order -/

/-- Updating children via `withChildren` keeps the node name. -/
theorem name_withChildren (t : RepoFileInfo) (ch : List RepoFileInfo) :
    (t.withChildren ch).name = t.name := by
  cases t
  rfl

/-- A hit of the directory search yields an in-range directory node. -/
theorem find_dir_idx_some (seg : String) :
    ∀ (l : List RepoFileInfo) (i : Nat), find_dir_idx seg l = some i →
      ∃ t, l[i]? = some t ∧ t.is_dir = true := by
  intro l
  induction l with
  | nil => intro i h; simp [find_dir_idx] at h
  | cons t ts ih =>
    intro i h
    rw [find_dir_idx] at h
    by_cases hc : t.name = seg ∧ t.is_dir
    · rw [if_pos hc] at h
      injection h with h'
      subst h'
      exact ⟨t, by simp, hc.2⟩
    · rw [if_neg hc] at h
      cases hf : find_dir_idx seg ts with
      | none => rw [hf] at h; simp at h
      | some j =>
        rw [hf] at h
        simp only [Option.map_some'] at h
        injection h with h'
        subst h'
        obtain ⟨u, hu, hd⟩ := ih j hf
        exact ⟨u, by simpa using hu, hd⟩

/-- Every member of an invariant-satisfying list satisfies the node
invariant. -/
theorem invListB_get : ∀ (l : List RepoFileInfo) (i : Nat) (t : RepoFileInfo),
    invListB l = true → l[i]? = some t → invNodeB t = true := by
  intro l
  induction l with
  | nil => intro i t _ hg; simp at hg
  | cons a as ih =>
    intro i t h hg
    simp only [invListB, Bool.and_eq_true] at h
    cases i with
    | zero =>
      simp only [List.getElem?_cons_zero, Option.some.injEq] at hg
      subst hg
      exact h.1
    | succ j =>
      simp only [List.getElem?_cons_succ] at hg
      exact ih j t h.2 hg

/-- Replacing one element by an invariant-satisfying node preserves the
list invariant. -/
theorem invListB_set : ∀ (l : List RepoFileInfo) (i : Nat) (t' : RepoFileInfo),
    invListB l = true → invNodeB t' = true → invListB (l.set i t') = true := by
  intro l
  induction l with
  | nil => intro i t' h _; simpa using h
  | cons a as ih =>
    intro i t' h ht
    simp only [invListB, Bool.and_eq_true] at h
    cases i with
    | zero =>
      show invListB (t' :: as) = true
      simp only [invListB, Bool.and_eq_true]
      exact ⟨ht, h.2⟩
    | succ j =>
      show invListB (a :: as.set j t') = true
      simp only [invListB, Bool.and_eq_true]
      exact ⟨h.1, ih j t' h.2 ht⟩

/-- The list invariant is closed under append. -/
theorem invListB_append : ∀ (a b : List RepoFileInfo),
    invListB a = true → invListB b = true → invListB (a ++ b) = true := by
  intro a
  induction a with
  | nil => intro b _ hb; simpa using hb
  | cons t ts ih =>
    intro b h hb
    simp only [invListB, Bool.and_eq_true] at h
    simp only [List.cons_append, invListB, Bool.and_eq_true]
    exact ⟨h.1, ih b h.2 hb⟩

/-- Updating a node's children in place does not change the sibling
name sequence. -/
theorem map_name_set : ∀ (l : List RepoFileInfo) (i : Nat) (t : RepoFileInfo)
    (ch : List RepoFileInfo), l[i]? = some t →
    (l.set i (t.withChildren ch)).map RepoFileInfo.name = l.map RepoFileInfo.name := by
  intro l
  induction l with
  | nil => intro i t ch hg; simp at hg
  | cons a as ih =>
    intro i t ch hg
    cases i with
    | zero =>
      simp only [List.getElem?_cons_zero, Option.some.injEq] at hg
      subst hg
      show ((a.withChildren ch) :: as).map RepoFileInfo.name = (a :: as).map RepoFileInfo.name
      simp [name_withChildren]
    | succ j =>
      simp only [List.getElem?_cons_succ] at hg
      show (a :: as.set j (t.withChildren ch)).map RepoFileInfo.name =
        (a :: as).map RepoFileInfo.name
      simp [ih j t ch hg]

/-- The insertion `insert_file_to_tree` preserves the tree invariant: it descends
only into directory nodes, and every node it creates is a directory
exactly when it gets children. -/
theorem insert_preserves_inv (om ot onm os : String) :
    ∀ (segs pre : List String) (lst : List RepoFileInfo),
      invListB lst = true →
      invListB (insert_file_to_tree om ot onm os pre segs lst) = true := by
  intro segs
  induction segs with
  | nil => intro pre lst h; simpa [insert_file_to_tree] using h
  | cons seg rest ih =>
    intro pre lst h
    simp only [insert_file_to_tree]
    split
    · rename_i i hf
      split
      · rename_i t hg
        obtain ⟨u, hu, hd⟩ := find_dir_idx_some seg lst i hf
        rw [hg] at hu
        injection hu with hu
        subst hu
        apply invListB_set lst i _ h
        have hct : invNodeB t = true := invListB_get lst i t h hg
        cases t with
        | mk n d om2 ot2 onm2 os2 isd ch =>
          simp only [invNodeB, Bool.and_eq_true, Bool.or_eq_true] at hct
          simp only [RepoFileInfo.is_dir] at hd
          subst hd
          simp only [RepoFileInfo.withChildren, RepoFileInfo.children, invNodeB,
            Bool.and_eq_true, Bool.or_eq_true]
          exact ⟨Or.inr trivial, ih (pre ++ [seg]) ch hct.2⟩
      · exact h
    · apply invListB_append lst _ h
      simp only [invListB, Bool.and_eq_true]
      refine ⟨?_, by simp [invListB]⟩
      cases hisd : ("040000".data.isPrefixOf om.data || !rest.isEmpty) with
      | true =>
        simp only [hisd, if_true, invNodeB, Bool.and_eq_true, Bool.or_eq_true, if_pos]
        exact ⟨Or.inr trivial, ih (pre ++ [seg]) [] (by simp [invListB])⟩
      | false =>
        simp [hisd, invNodeB, invListB]

/-- One insertion either leaves the sibling name sequence unchanged
(in-place descent) or appends exactly the new segment's name at the
end: siblings stay in first-encountered insertion order. -/
theorem insert_names (om ot onm os : String) (segs pre : List String)
    (lst : List RepoFileInfo) :
    ∃ r, (insert_file_to_tree om ot onm os pre segs lst).map RepoFileInfo.name =
      lst.map RepoFileInfo.name ++ r ∧ (r = [] ∨ r = segs.take 1) := by
  cases segs with
  | nil => exact ⟨[], by simp [insert_file_to_tree], Or.inl rfl⟩
  | cons seg rest =>
    simp only [insert_file_to_tree]
    split
    · rename_i i hf
      split
      · rename_i t hg
        exact ⟨[], by simp [map_name_set lst i t _ hg], Or.inl rfl⟩
      · exact ⟨[], by simp, Or.inl rfl⟩
    · refine ⟨[seg], ?_, Or.inr rfl⟩
      simp [RepoFileInfo.name]

/-- The line fold of `file_info_list_to_tree` preserves the tree
invariant from any invariant-satisfying accumulator. -/
theorem tree_fold_inv : ∀ (lines : List String) (acc : List RepoFileInfo),
    invListB acc = true → invListB (lines.foldl file_info_line_step acc) = true := by
  intro lines
  induction lines with
  | nil => intro acc h; simpa using h
  | cons line ls ih =>
    intro acc h
    simp only [List.foldl_cons]
    apply ih
    simp only [file_info_line_step]
    split
    · split
      · exact insert_preserves_inv _ _ _ _ _ _ acc h
      · apply invListB_append acc _ h
        simp [invListB, invNodeB]
    · exact h

/-- C8: for every input line list, every node of the built tree has
children only if it is a directory; and each insertion preserves the
existing sibling order, appending any new sibling at the end (no
sorting). -/
theorem C8_tree_invariant_and_sibling_order :
    (∀ (file_info_list : List String),
      invListB (file_info_list_to_tree file_info_list) = true) ∧
    (∀ (object_mode object_type object_name object_size : String)
       (pre segs : List String) (lst : List RepoFileInfo),
      ∃ r, (insert_file_to_tree object_mode object_type object_name object_size
          pre segs lst).map RepoFileInfo.name =
        lst.map RepoFileInfo.name ++ r ∧ (r = [] ∨ r = segs.take 1)) :=
  ⟨fun lines => tree_fold_inv lines [] (by simp [invListB]),
   fun om ot onm os pre segs lst => insert_names om ot onm os segs pre lst⟩

/-! ## Claim C3: amended general behaviour of the clause order -/

/-- Taking `takeWhile isDigit` of an all-digit block followed by a non-digit
stops exactly at the block. -/
theorem takeWhile_digits_append : ∀ (l1 : List Char) (a : Char) (rest : List Char),
    (∀ c ∈ l1, c.isDigit = true) → a.isDigit = false →
    (l1 ++ a :: rest).takeWhile Char.isDigit = l1 := by
  intro l1
  induction l1 with
  | nil => intro a rest _ h2; simp [List.takeWhile_cons, h2]
  | cons c cs ih =>
    intro a rest h1 h2
    have hc : c.isDigit = true := h1 c (by simp)
    simp [List.takeWhile_cons, hc, ih a rest (fun x hx => h1 x (by simp [hx])) h2]

/-- Taking `dropWhile isDigit` of an all-digit block followed by a non-digit
drops exactly the block. -/
theorem dropWhile_digits_append : ∀ (l1 : List Char) (a : Char) (rest : List Char),
    (∀ c ∈ l1, c.isDigit = true) → a.isDigit = false →
    (l1 ++ a :: rest).dropWhile Char.isDigit = a :: rest := by
  intro l1
  induction l1 with
  | nil => intro a rest _ h2; simp [List.dropWhile_cons, h2]
  | cons c cs ih =>
    intro a rest h1 h2
    have hc : c.isDigit = true := h1 c (by simp)
    simp [List.dropWhile_cons, hc, ih a rest (fun x hx => h1 x (by simp [hx])) h2]

/-- Stripping a literal from itself-plus-rest yields the rest. -/
theorem stripLit_append : ∀ (lit rest : List Char), stripLit lit (lit ++ rest) = some rest := by
  intro lit rest
  induction lit with
  | nil => rfl
  | cons p ps ih => simp [stripLit, ih]

/-- A clause `, <digits> <word>s(<sign>)` at the current position is
captured with its count and the remaining text. -/
theorem matchClause_match (word : List Char) (sign : Char) (ks rest : List Char)
    (hne : ks ≠ []) (hdig : ∀ c ∈ ks, c.isDigit = true) :
    matchClause word sign
      ([',', ' '] ++ (ks ++ ((' ' :: word) ++ ('s' :: ('(' :: sign :: ')' :: rest))))) =
      some (digitsVal ks, rest) := by
  have h1 : stripLit [',', ' ']
      ([',', ' '] ++ (ks ++ ((' ' :: word) ++ ('s' :: ('(' :: sign :: ')' :: rest))))) =
      some (ks ++ ((' ' :: word) ++ ('s' :: ('(' :: sign :: ')' :: rest)))) :=
    stripLit_append _ _
  have htw : (ks ++ ((' ' :: word) ++ ('s' :: ('(' :: sign :: ')' :: rest)))).takeWhile
      Char.isDigit = ks :=
    takeWhile_digits_append ks ' ' _ hdig (by decide)
  have hemp : ks.isEmpty = false := by
    obtain ⟨k, ks', rfl⟩ := List.exists_cons_of_ne_nil hne
    rfl
  have hdw : (ks ++ ((' ' :: word) ++ ('s' :: ('(' :: sign :: ')' :: rest)))).dropWhile
      Char.isDigit = ' ' :: (word ++ ('s' :: ('(' :: sign :: ')' :: rest))) :=
    dropWhile_digits_append ks ' ' _ hdig (by decide)
  have h2 : stripLit (' ' :: word) (' ' :: (word ++ ('s' :: ('(' :: sign :: ')' :: rest)))) =
      some ('s' :: ('(' :: sign :: ')' :: rest)) :=
    stripLit_append (' ' :: word) _
  have h3 : stripLit ['(', sign, ')'] ('(' :: sign :: ')' :: rest) = some rest :=
    stripLit_append ['(', sign, ')'] rest
  simp only [matchClause, h1, htw, hemp, Bool.false_eq_true, if_false, hdw, h2, h3]

/-- The insertions clause does NOT match when the word after the count
starts with 'd' (a deletions clause in its place): the regex's group is
positional, not substring-searching. -/
theorem matchClause_ins_mismatch (ks Z : List Char)
    (hne : ks ≠ []) (hdig : ∀ c ∈ ks, c.isDigit = true) :
    matchClause ['i', 'n', 's', 'e', 'r', 't', 'i', 'o', 'n'] '+'
      ([',', ' '] ++ (ks ++ (' ' :: ('d' :: Z)))) = none := by
  have h1 : stripLit [',', ' '] ([',', ' '] ++ (ks ++ (' ' :: ('d' :: Z)))) =
      some (ks ++ (' ' :: ('d' :: Z))) := stripLit_append _ _
  have htw : (ks ++ (' ' :: ('d' :: Z))).takeWhile Char.isDigit = ks :=
    takeWhile_digits_append ks ' ' _ hdig (by decide)
  have hemp : ks.isEmpty = false := by
    obtain ⟨k, ks', rfl⟩ := List.exists_cons_of_ne_nil hne
    rfl
  have hdw : (ks ++ (' ' :: ('d' :: Z))).dropWhile Char.isDigit = ' ' :: ('d' :: Z) :=
    dropWhile_digits_append ks ' ' _ hdig (by decide)
  have h2 : stripLit (' ' :: ['i', 'n', 's', 'e', 'r', 't', 'i', 'o', 'n'])
      (' ' :: ('d' :: Z)) = none := by
    simp [stripLit]
  simp only [matchClause, h1, htw, hemp, Bool.false_eq_true, if_false, hdw, h2]

/-- The mandatory `\d+ files changed` clause at the head of the input
is consumed, leaving the optional clauses on the tail. -/
theorem matchShortstatAt_digits (ds tail : List Char)
    (hne : ds ≠ []) (hdig : ∀ c ∈ ds, c.isDigit = true) :
    matchShortstatAt (ds ++ (" files changed".data ++ tail)) =
      some (digitsVal ds, shortstatClauses tail) := by
  have htw : (ds ++ (" files changed".data ++ tail)).takeWhile Char.isDigit = ds :=
    takeWhile_digits_append ds ' ' _ hdig (by decide)
  have hemp : ds.isEmpty = false := by
    obtain ⟨d, ds', rfl⟩ := List.exists_cons_of_ne_nil hne
    rfl
  have hdw : (ds ++ (" files changed".data ++ tail)).dropWhile Char.isDigit =
      ' ' :: ('f' :: ('i' :: ('l' :: ('e' :: ('s' :: (' ' :: ('c' :: ('h' :: ('a' ::
        ('n' :: ('g' :: ('e' :: ('d' :: tail))))))))))))) :=
    dropWhile_digits_append ds ' ' _ hdig (by decide)
  have h2 : stripLit [' ', 'f', 'i', 'l', 'e']
      (' ' :: ('f' :: ('i' :: ('l' :: ('e' :: ('s' :: (' ' :: ('c' :: ('h' :: ('a' ::
        ('n' :: ('g' :: ('e' :: ('d' :: tail)))))))))))))) =
      some ('s' :: (' ' :: ('c' :: ('h' :: ('a' :: ('n' :: ('g' :: ('e' :: ('d' :: tail))))))))) :=
    stripLit_append [' ', 'f', 'i', 'l', 'e'] _
  have h3 : stripLit [' ', 'c', 'h', 'a', 'n', 'g', 'e', 'd']
      (' ' :: ('c' :: ('h' :: ('a' :: ('n' :: ('g' :: ('e' :: ('d' :: tail)))))))) =
      some tail :=
    stripLit_append [' ', 'c', 'h', 'a', 'n', 'g', 'e', 'd'] tail
  simp only [matchShortstatAt, htw, hemp, Bool.false_eq_true, if_false, hdw, h2, h3]

/-- The leftmost search succeeds immediately when the regex matches at
the head. -/
theorem shortstatSearch_head {l : List Char} {x : Nat × Nat × Nat}
    (hne : l ≠ []) (h : matchShortstatAt l = some x) : shortstatSearch l = some x := by
  cases l with
  | nil => exact absurd rfl hne
  | cons c cs => simp [shortstatSearch, h]

/-- C3 amended: the shortstat parser extracts the two optional counts
by POSITION, not by substring detection: when the insertion clause
precedes the deletion clause both counts are extracted, but when the
deletion clause comes first only the deletion count is captured and
the insertion count silently defaults to 0. -/
theorem C3_amended_clause_order_is_positional :
    (∀ ds ms ks : List Char, ds ≠ [] → (∀ c ∈ ds, c.isDigit = true) →
      ms ≠ [] → (∀ c ∈ ms, c.isDigit = true) → ks ≠ [] → (∀ c ∈ ks, c.isDigit = true) →
      log_shortstat_parse (String.mk (ds ++ (" files changed, ".data ++ (ms ++
        (" insertions(+), ".data ++ (ks ++ " deletions(-)".data)))))) =
        Except.ok (digitsVal ds, digitsVal ms, digitsVal ks)) ∧
    (∀ ds ks ms : List Char, ds ≠ [] → (∀ c ∈ ds, c.isDigit = true) →
      ks ≠ [] → (∀ c ∈ ks, c.isDigit = true) →
      log_shortstat_parse (String.mk (ds ++ (" files changed, ".data ++ (ks ++
        (" deletions(-), ".data ++ (ms ++ " insertions(+)".data)))))) =
        Except.ok (digitsVal ds, 0, digitsVal ks)) := by
  constructor
  · intro ds ms ks hds hdds hms hdms hks hdks
    have hB := matchClause_match ['d', 'e', 'l', 'e', 't', 'i', 'o', 'n'] '-' ks
      ([] : List Char) hks hdks
    have hA := matchClause_match ['i', 'n', 's', 'e', 'r', 't', 'i', 'o', 'n'] '+' ms
      ([',', ' '] ++ (ks ++ ((' ' :: ['d', 'e', 'l', 'e', 't', 'i', 'o', 'n']) ++
        ('s' :: ('(' :: '-' :: ')' :: ([] : List Char)))))) hms hdms
    have hclauses : shortstatClauses ([',', ' '] ++ (ms ++ ((' ' ::
        ['i', 'n', 's', 'e', 'r', 't', 'i', 'o', 'n']) ++ ('s' :: ('(' :: '+' :: ')' ::
        ([',', ' '] ++ (ks ++ ((' ' :: ['d', 'e', 'l', 'e', 't', 'i', 'o', 'n']) ++
        ('s' :: ('(' :: '-' :: ')' :: ([] : List Char))))))))))) =
        (digitsVal ms, digitsVal ks) := by
      simp only [shortstatClauses, hA, shortstatDel, hB]
    have hmain := matchShortstatAt_digits ds ([',', ' '] ++ (ms ++ ((' ' ::
      ['i', 'n', 's', 'e', 'r', 't', 'i', 'o', 'n']) ++ ('s' :: ('(' :: '+' :: ')' ::
      ([',', ' '] ++ (ks ++ ((' ' :: ['d', 'e', 'l', 'e', 't', 'i', 'o', 'n']) ++
      ('s' :: ('(' :: '-' :: ')' :: ([] : List Char))))))))))) hds hdds
    rw [hclauses] at hmain
    have hmain' : matchShortstatAt (String.mk (ds ++ (" files changed, ".data ++ (ms ++
        (" insertions(+), ".data ++ (ks ++ " deletions(-)".data)))))).data =
        some (digitsVal ds, digitsVal ms, digitsVal ks) := hmain
    have hne2 : (String.mk (ds ++ (" files changed, ".data ++ (ms ++
        (" insertions(+), ".data ++ (ks ++ " deletions(-)".data)))))).data ≠ [] := by
      show ds ++ (" files changed, ".data ++ (ms ++ (" insertions(+), ".data ++
        (ks ++ " deletions(-)".data)))) ≠ []
      obtain ⟨d, ds', rfl⟩ := List.exists_cons_of_ne_nil hds
      simp
    have hsearch := shortstatSearch_head hne2 hmain'
    show (match shortstatSearch (String.mk (ds ++ (" files changed, ".data ++ (ms ++
        (" insertions(+), ".data ++ (ks ++ " deletions(-)".data)))))).data with
      | some x => Except.ok x
      | none => Except.error "No match found!") =
      Except.ok (digitsVal ds, digitsVal ms, digitsVal ks)
    rw [hsearch]
  · intro ds ks ms hds hdds hks hdks
    have hA0 := matchClause_ins_mismatch ks
      ('e' :: 'l' :: 'e' :: 't' :: 'i' :: 'o' :: 'n' :: 's' :: '(' :: '-' :: ')' ::
        ([',', ' '] ++ (ms ++ " insertions(+)".data))) hks hdks
    have hA : matchClause ['i', 'n', 's', 'e', 'r', 't', 'i', 'o', 'n'] '+'
        ([',', ' '] ++ (ks ++ ((' ' :: ['d', 'e', 'l', 'e', 't', 'i', 'o', 'n']) ++
          ('s' :: ('(' :: '-' :: ')' :: ([',', ' '] ++ (ms ++ " insertions(+)".data))))))) =
        none := hA0
    have hB := matchClause_match ['d', 'e', 'l', 'e', 't', 'i', 'o', 'n'] '-' ks
      ([',', ' '] ++ (ms ++ " insertions(+)".data)) hks hdks
    have hclauses : shortstatClauses ([',', ' '] ++ (ks ++ ((' ' ::
        ['d', 'e', 'l', 'e', 't', 'i', 'o', 'n']) ++ ('s' :: ('(' :: '-' :: ')' ::
        ([',', ' '] ++ (ms ++ " insertions(+)".data))))))) = (0, digitsVal ks) := by
      simp only [shortstatClauses, hA, shortstatDel, hB]
    have hmain := matchShortstatAt_digits ds ([',', ' '] ++ (ks ++ ((' ' ::
      ['d', 'e', 'l', 'e', 't', 'i', 'o', 'n']) ++ ('s' :: ('(' :: '-' :: ')' ::
      ([',', ' '] ++ (ms ++ " insertions(+)".data))))))) hds hdds
    rw [hclauses] at hmain
    have hmain' : matchShortstatAt (String.mk (ds ++ (" files changed, ".data ++ (ks ++
        (" deletions(-), ".data ++ (ms ++ " insertions(+)".data)))))).data =
        some (digitsVal ds, 0, digitsVal ks) := hmain
    have hne2 : (String.mk (ds ++ (" files changed, ".data ++ (ks ++
        (" deletions(-), ".data ++ (ms ++ " insertions(+)".data)))))).data ≠ [] := by
      show ds ++ (" files changed, ".data ++ (ks ++ (" deletions(-), ".data ++
        (ms ++ " insertions(+)".data)))) ≠ []
      obtain ⟨d, ds', rfl⟩ := List.exists_cons_of_ne_nil hds
      simp
    have hsearch := shortstatSearch_head hne2 hmain'
    show (match shortstatSearch (String.mk (ds ++ (" files changed, ".data ++ (ks ++
        (" deletions(-), ".data ++ (ms ++ " insertions(+)".data)))))).data with
      | some x => Except.ok x
      | none => Except.error "No match found!") =
      Except.ok (digitsVal ds, 0, digitsVal ks)
    rw [hsearch]

set_option maxRecDepth 100000 in
/-- Witness for C3's amended claim at ds = "3", ks = "4", ms = "10"
(the reversed-order input "3 files changed, 4 deletions(-), 10
insertions(+)"). -/
theorem C3_witness :
    log_shortstat_parse (String.mk (['3'] ++ (" files changed, ".data ++ (['4'] ++
      (" deletions(-), ".data ++ (['1', '0'] ++ " insertions(+)".data)))))) =
      Except.ok (digitsVal ['3'], 0, digitsVal ['4']) :=
  C3_amended_clause_order_is_positional.2 ['3'] ['4'] ['1', '0'] (by decide) (by decide)
    (by decide) (by decide)

end GitUtilNative
